import Mathlib

/-!
Shallow embedding of `src/tools/addfunctionstoindex.cpp` from the
functionsimsearch repository: the concurrent fingerprint-and-index
pipeline that adds the functions of a disassembled binary to a
similarity-search index.

The driver under `src/` is the authority for the job logic (filters,
capacity check, counter, exception handling, exit codes).  The external
collaborators whose code is not in the snapshot (the
`SimHashSearchIndex` store, the `FunctionSimHasher`, the flow-graph
builder, the thread pool) are modelled from the contracts stated in the
specification, and each such definition is marked `Modelled from the
spec:` in its doc comment.
-/

namespace AddFunctionsToIndex

/-- An entry of the similarity index: the two 64-bit fingerprint words,
the executable id and the function address, exactly the four arguments
of `search_index.AddFunction(hash_A, hash_B, file_id, function_address)`.
Machine integers are modelled as `Nat`; no arithmetic is performed on
them by the driver, so no overflow reduction is needed. -/
structure IndexEntry where
  hashA : Nat
  hashB : Nat
  fileId : Nat
  address : Nat
deriving DecidableEq, Repr

/-- Modelled from the spec: `SimHashSearchIndex`
(searchbackend/simhashsearchindex.hpp is not part of the snapshot) is a
capacity-bounded store of index entries with a free-capacity signal
(spec section 3, "SimilarityIndex": a single shared mutable store with a
notion of remaining free capacity). -/
structure SimHashSearchIndex where
  entries : List IndexEntry
  freeSpace : Nat
deriving DecidableEq, Repr

/-- Modelled from the spec: `GetIndexFileFreeSpace` returns the free
capacity of the index file. -/
def GetIndexFileFreeSpace (idx : SimHashSearchIndex) : Nat :=
  idx.freeSpace

/-- Modelled from the spec: `AddFunction` appends one entry, consuming
`cost` bytes of free capacity; when the remaining capacity does not
suffice it signals out-of-space (`boost::interprocess::bad_alloc` in the
source), modelled as `Except.error` (spec section 4.4: the index may
report an out-of-space condition at insert time). -/
def AddFunction (cost : Nat) (idx : SimHashSearchIndex)
    (hashA hashB fileId address : Nat) : Except Unit SimHashSearchIndex :=
  if cost ≤ idx.freeSpace then
    .ok ⟨idx.entries ++ [⟨hashA, hashB, fileId, address⟩], idx.freeSpace - cost⟩
  else
    .error ()

/-- One function of the binary, as the driver observes it through its
external collaborators: its address (`function->addr()`), the
branching-node count of its flow graph
(`graph.GetNumberOfBranchingNodes()` after `BuildFlowgraph`), whether
`ContainsSharedBasicBlocks(function)` holds, and the vector that
`hasher.CalculateFunctionSimHash(&generator, 128, &hashes)` would fill
for it. -/
structure Func where
  addr : Nat
  branchingNodes : Nat
  sharedBlocks : Bool
  simhashValues : List Nat
deriving DecidableEq, Repr

/-- The command-line configuration consumed by the job logic:
`FLAGS_minimum_function_size` and `FLAGS_no_shared_blocks`. -/
structure Config where
  minimumSize : Nat
  noSharedBlocks : Bool
deriving DecidableEq, Repr

/-- The literal second argument of the
`hasher.CalculateFunctionSimHash(&generator, 128, &hashes)` call in the
job lambda: the number of simhash output values requested from the
external fingerprinter. -/
def simhashRequestedOutputs : Nat := 128

/-- Modelled from the spec: the external fingerprinter fills the output
vector for the given function; the requested output count is passed
through but the contents of the result are external data, carried on the
`Func` record. -/
def CalculateFunctionSimHash (_requestedOutputs : Nat) (f : Func) : List Nat :=
  f.simhashValues

/-- How one job ends, read off the branches of the job lambda in the
source: the two early-return skips (size filter, index-file-full check),
a successful `AddFunction`, a caught `boost::interprocess::bad_alloc`
at insert time, or the out-of-bounds vector access `hashes[0]` /
`hashes[1]` when the fingerprinter returned fewer than two values
(undefined behaviour in the C++ source, kept as an explicit outcome in
the embedding). -/
inductive JobOutcome where
  | filteredSize (branchingNodes : Nat)
  | indexFull
  | added
  | outOfSpaceAtInsert
  | undefinedBehavior
deriving DecidableEq, Repr

/-- The state threaded through the run: the shared index and the atomic
`processed_functions` counter. -/
structure RunState where
  index : SimHashSearchIndex
  processed : Nat
deriving DecidableEq, Repr

/-- The job lambda pushed to the thread pool, for one function: build
the flow graph, increment the counter, apply the minimum-size filter,
check the free capacity of the index file against the 16 KiB margin
(`1ULL << 14`), extract the fingerprint, and insert under the mutex with
`bad_alloc` caught.  Sequential denotation of one job; `cost` is the
capacity consumed per entry. -/
def runJob (cfg : Config) (cost fileId : Nat) (f : Func) (s : RunState) :
    RunState × JobOutcome :=
  let s1 : RunState := { s with processed := s.processed + 1 }
  if f.branchingNodes ≤ cfg.minimumSize then
    (s1, .filteredSize f.branchingNodes)
  else if GetIndexFileFreeSpace s1.index < 2 ^ 14 then
    (s1, .indexFull)
  else
    match CalculateFunctionSimHash simhashRequestedOutputs f with
    | hashA :: hashB :: _ =>
      match AddFunction cost s1.index hashA hashB fileId f.addr with
      | .ok idx2 => ({ s1 with index := idx2 }, .added)
      | .error _ => (s1, .outOfSpaceAtInsert)
    | _ => (s1, .undefinedBehavior)

/-- One record of the run trace: the dispatched function, the free
capacity of the index when its job started (which, in this sequential
denotation, is the value its capacity check reads), and how the job
ended. -/
structure JobRecord where
  func : Func
  freeAtStart : Nat
  outcome : JobOutcome
deriving DecidableEq, Repr

/-- The submission loop of `main`: functions containing shared basic
blocks are skipped before submission when `FLAGS_no_shared_blocks` is
set (`continue`, no job, no counter increment); every other function is
dispatched as exactly one job.  The denotation executes the jobs in
submission order and records a trace. -/
def runPipeline (cfg : Config) (cost fileId : Nat) (funcs : List Func)
    (s : RunState) : RunState × List JobRecord :=
  match funcs with
  | [] => (s, [])
  | f :: rest =>
    if cfg.noSharedBlocks && f.sharedBlocks then
      runPipeline cfg cost fileId rest s
    else
      let free := GetIndexFileFreeSpace s.index
      let (s1, outcome) := runJob cfg cost fileId f s
      let (s2, trace) := runPipeline cfg cost fileId rest s1
      (s2, ⟨f, free, outcome⟩ :: trace)

/-- The result of a whole invocation: the process exit code, the fatal
diagnostic printed before an early exit (if any), the final run state,
and the job trace. -/
structure MainResult where
  exitCode : Int
  diagnostic : Option String
  state : RunState
  trace : List JobRecord
deriving DecidableEq, Repr

/-- The `main` function of the tool: empty input is a usage error
(`return -1`), a failed `disassembly.Load()` exits with code 1, an empty
function catalog returns -1, and otherwise the jobs are run, the pool is
drained (`pool.Stop(true)`) and `main` falls off the end, returning 0.
`loadOk` stands for the result of the external `disassembly.Load()`;
`initIndex` is the index opened from `FLAGS_index`; the counter starts
at 0. -/
def mainRun (cfg : Config) (cost fileId : Nat) (input : String)
    (loadOk : Bool) (funcs : List Func) (initIndex : SimHashSearchIndex) :
    MainResult :=
  if input = "" then
    ⟨-1, some "[!] Empty target binary.", ⟨initIndex, 0⟩, []⟩
  else if !loadOk then
    ⟨1, none, ⟨initIndex, 0⟩, []⟩
  else if funcs.length = 0 then
    ⟨-1, some "No functions found.", ⟨initIndex, 0⟩, []⟩
  else
    let (s, trace) := runPipeline cfg cost fileId funcs ⟨initIndex, 0⟩
    ⟨0, none, s, trace⟩

/-- The entry a successful insert writes for a function: the first two
fingerprinter output values (`hashes[0]` as `hash_A`, `hashes[1]` as
`hash_B`), the executable id and the function address; `none` when fewer
than two values are available. -/
def entryOf (fileId : Nat) (f : Func) : Option IndexEntry :=
  match f.simhashValues with
  | hashA :: hashB :: _ => some ⟨hashA, hashB, fileId, f.addr⟩
  | _ => none

/-- The entry a function contributes to the index when its job reaches a
successful insert: the shared-block and size filters pass and the
fingerprinter returned at least two values. -/
def candidateEntry (cfg : Config) (fileId : Nat) (f : Func) :
    Option IndexEntry :=
  if cfg.noSharedBlocks && f.sharedBlocks then none
  else if f.branchingNodes ≤ cfg.minimumSize then none
  else entryOf fileId f

/-!
Concurrency model for the job lambda.  The atomic steps of one job that
passes both filters, in source order, with the two critical sections
guarded by the single process-wide mutex `search_index_mutex`: the
flow-graph construction together with the counter increment, the
unlocked `GetIndexFileFreeSpace` capacity check, the locked
`DyninstFeatureGenerator` construction, the unsynchronized simhash
computation, and the `lock_guard`-protected `AddFunction` insert.
-/

/-- One atomic step of the job lambda. -/
inductive JobStep where
  | buildGraph
  | readFreeSpace
  | lockAcquire
  | makeGenerator
  | lockRelease
  | computeHashes
  | addFunctionStep
deriving DecidableEq, Repr

/-- The step sequence of a job that passes both filters, read off the
source: the capacity read at position 1 happens with no lock held; the
generator construction (positions 2-4) and the insert (positions 6-8)
are each bracketed by an acquire and a release of the same mutex. -/
def jobSteps : List JobStep :=
  [.buildGraph, .readFreeSpace,
   .lockAcquire, .makeGenerator, .lockRelease,
   .computeHashes,
   .lockAcquire, .addFunctionStep, .lockRelease]

/-- A two-worker pool state: the program counter of each thread into
`jobSteps`, and the current holder of the mutex (`some false` for
thread 0, `some true` for thread 1). -/
structure PoolState where
  pc0 : Nat
  pc1 : Nat
  lockHolder : Option Bool
deriving DecidableEq, Repr

/-- The program counter of the given thread. -/
def pcOf (σ : PoolState) (t : Bool) : Nat :=
  if t then σ.pc1 else σ.pc0

/-- Replaces the program counter of the given thread. -/
def setPc (σ : PoolState) (t : Bool) (n : Nat) : PoolState :=
  if t then { σ with pc1 := n } else { σ with pc0 := n }

/-- One thread executes its next step, when enabled: acquiring the
mutex requires it to be free, releasing requires owning it; every other
step (the capacity read included) runs regardless of the mutex. -/
def threadStep (σ : PoolState) (t : Bool) : Option PoolState :=
  match jobSteps.get? (pcOf σ t) with
  | none => none
  | some step =>
    match step with
    | .lockAcquire =>
      if σ.lockHolder = none then
        some { setPc σ t (pcOf σ t + 1) with lockHolder := some t }
      else none
    | .lockRelease =>
      if σ.lockHolder = some t then
        some { setPc σ t (pcOf σ t + 1) with lockHolder := none }
      else none
    | _ => some (setPc σ t (pcOf σ t + 1))

/-- Runs a schedule, an interleaving given as the list of thread ids to
step next; `none` when some scheduled step is not enabled. -/
def runSchedule (sched : List Bool) (σ : PoolState) : Option PoolState :=
  match sched with
  | [] => some σ
  | t :: rest =>
    match threadStep σ t with
    | some σ2 => runSchedule rest σ2
    | none => none

/-- Both workers start at the beginning of the job with the mutex
free. -/
def initPool : PoolState := ⟨0, 0, none⟩

/-- A pool state is reachable when some interleaving of the two workers
produces it from the initial state. -/
def Reachable (σ : PoolState) : Prop :=
  ∃ sched, runSchedule sched initPool = some σ

/-- Program counters from which a thread holds the mutex: just after
either of its two acquires, until it completes the matching release. -/
def holdingRange (pc : Nat) : Prop :=
  pc = 3 ∨ pc = 4 ∨ pc = 7 ∨ pc = 8

/-- The claim that the free-capacity read is mutually exclusive with
inserts: in no reachable state can one thread fire its
`GetIndexFileFreeSpace` read (program counter 1) while the other thread
is inside its locked `AddFunction` section (program counter 7, owning
the mutex). -/
def CapacityReadInsertExclusive : Prop :=
  ¬ ∃ σ : PoolState, Reachable σ ∧ ∃ t : Bool,
      pcOf σ t = 7 ∧ σ.lockHolder = some t ∧
      pcOf σ (!t) = 1 ∧ (threadStep σ (!t)).isSome = true

/-- The mutex-ownership invariant: a thread whose program counter lies
inside a critical section owns the mutex. -/
def LockInv (σ : PoolState) : Prop :=
  (holdingRange σ.pc0 → σ.lockHolder = some false) ∧
  (holdingRange σ.pc1 → σ.lockHolder = some true)

/-- How a job ends, as a function of the configuration, the per-entry
cost, the function data and the free capacity the job observes: a pure
restatement of the branch structure of the job lambda. -/
def jobOutcomeOf (cfg : Config) (cost : Nat) (f : Func) (free : Nat) :
    JobOutcome :=
  if f.branchingNodes ≤ cfg.minimumSize then .filteredSize f.branchingNodes
  else if free < 2 ^ 14 then .indexFull
  else
    match f.simhashValues with
    | _ :: _ :: _ => if cost ≤ free then .added else .outOfSpaceAtInsert
    | _ => .undefinedBehavior

/-- Outcomes on which the source job returns normally (possibly after
printing a message); the `undefinedBehavior` outcome stands for the
out-of-bounds vector accesses `hashes[0]` and `hashes[1]`, for which the
source has no handling at all. -/
def JobOutcome.handled : JobOutcome → Bool
  | .undefinedBehavior => false
  | _ => true

theorem runJob_outcome (cfg : Config) (cost fileId : Nat) (f : Func)
    (s : RunState) :
    (runJob cfg cost fileId f s).2 =
      jobOutcomeOf cfg cost f s.index.freeSpace := by
  unfold runJob jobOutcomeOf GetIndexFileFreeSpace CalculateFunctionSimHash
    AddFunction
  rcases hv : f.simhashValues with _ | ⟨a, _ | ⟨b, t⟩⟩ <;>
    simp only [hv] <;> split_ifs <;> simp_all

theorem runJob_processed (cfg : Config) (cost fileId : Nat) (f : Func)
    (s : RunState) :
    (runJob cfg cost fileId f s).1.processed = s.processed + 1 := by
  unfold runJob GetIndexFileFreeSpace CalculateFunctionSimHash AddFunction
  rcases hv : f.simhashValues with _ | ⟨a, _ | ⟨b, t⟩⟩ <;>
    simp only [hv] <;> split_ifs <;> simp_all

theorem runJob_index_of_added (cfg : Config) (cost fileId : Nat) (f : Func)
    (s : RunState) (h : (runJob cfg cost fileId f s).2 = .added) :
    ∃ e, entryOf fileId f = some e ∧ e.address = f.addr ∧
      (runJob cfg cost fileId f s).1.index.entries
        = s.index.entries ++ [e] := by
  unfold runJob GetIndexFileFreeSpace CalculateFunctionSimHash AddFunction
    at h ⊢
  rcases hv : f.simhashValues with _ | ⟨a, _ | ⟨b, t⟩⟩ <;>
    simp only [hv] at h ⊢ <;> split_ifs at h ⊢ <;>
    simp_all [entryOf, hv]

theorem runJob_index_of_not_added (cfg : Config) (cost fileId : Nat)
    (f : Func) (s : RunState)
    (h : (runJob cfg cost fileId f s).2 ≠ .added) :
    (runJob cfg cost fileId f s).1.index = s.index := by
  unfold runJob GetIndexFileFreeSpace CalculateFunctionSimHash AddFunction
    at h ⊢
  rcases hv : f.simhashValues with _ | ⟨a, _ | ⟨b, t⟩⟩ <;>
    simp only [hv] at h ⊢ <;> split_ifs at h ⊢ <;> simp_all

theorem runPipeline_cons_skip (cfg : Config) (cost fileId : Nat) (f : Func)
    (rest : List Func) (s : RunState)
    (h : (cfg.noSharedBlocks && f.sharedBlocks) = true) :
    runPipeline cfg cost fileId (f :: rest) s
      = runPipeline cfg cost fileId rest s := by
  conv_lhs => unfold runPipeline
  simp [h]

theorem runPipeline_cons_dispatch (cfg : Config) (cost fileId : Nat)
    (f : Func) (rest : List Func) (s : RunState)
    (h : (cfg.noSharedBlocks && f.sharedBlocks) = false) :
    runPipeline cfg cost fileId (f :: rest) s
      = ((runPipeline cfg cost fileId rest
            (runJob cfg cost fileId f s).1).1,
         ⟨f, s.index.freeSpace, (runJob cfg cost fileId f s).2⟩
           :: (runPipeline cfg cost fileId rest
                 (runJob cfg cost fileId f s).1).2) := by
  conv_lhs => unfold runPipeline
  simp [h, GetIndexFileFreeSpace]

/-- Every record of the trace belongs to a function that was not
shared-block-filtered, and its outcome is the pure branch function of
the job applied to the free capacity the job observed. -/
theorem runPipeline_trace_spec (cfg : Config) (cost fileId : Nat)
    (funcs : List Func) (s : RunState) :
    ∀ r ∈ (runPipeline cfg cost fileId funcs s).2,
      (cfg.noSharedBlocks && r.func.sharedBlocks) = false ∧
      r.outcome = jobOutcomeOf cfg cost r.func r.freeAtStart := by
  induction funcs generalizing s with
  | nil => simp [runPipeline]
  | cons f rest ih =>
    by_cases h : (cfg.noSharedBlocks && f.sharedBlocks) = true
    · rw [runPipeline_cons_skip cfg cost fileId f rest s h]
      exact ih s
    · rw [runPipeline_cons_dispatch cfg cost fileId f rest s
        (by simpa using h)]
      intro r hr
      rcases List.mem_cons.mp hr with hr | hr
      · subst hr
        exact ⟨by simpa using h, runJob_outcome cfg cost fileId f s⟩
      · exact ih _ r hr

/-- The final index contents are the initial contents followed by one
entry per trace record whose outcome is a successful insert, in trace
order. -/
theorem runPipeline_entries (cfg : Config) (cost fileId : Nat)
    (funcs : List Func) (s : RunState) :
    (runPipeline cfg cost fileId funcs s).1.index.entries
      = s.index.entries
        ++ (runPipeline cfg cost fileId funcs s).2.filterMap
             (fun r => if r.outcome = .added then entryOf fileId r.func
                       else none) := by
  induction funcs generalizing s with
  | nil => simp [runPipeline]
  | cons f rest ih =>
    by_cases h : (cfg.noSharedBlocks && f.sharedBlocks) = true
    · rw [runPipeline_cons_skip cfg cost fileId f rest s h]
      exact ih s
    · rw [runPipeline_cons_dispatch cfg cost fileId f rest s
        (by simpa using h)]
      by_cases ha : (runJob cfg cost fileId f s).2 = .added
      · obtain ⟨e, he, _, hidx⟩ :=
          runJob_index_of_added cfg cost fileId f s ha
        rw [ih, hidx]
        simp [ha, he]
      · have hidx := runJob_index_of_not_added cfg cost fileId f s ha
        rw [ih, hidx]
        simp [ha]

/-- The functions of the trace are a sublist of the function catalog:
each function is dispatched as at most one job. -/
theorem runPipeline_trace_sublist (cfg : Config) (cost fileId : Nat)
    (funcs : List Func) (s : RunState) :
    ((runPipeline cfg cost fileId funcs s).2.map JobRecord.func).Sublist
      funcs := by
  induction funcs generalizing s with
  | nil => simp [runPipeline]
  | cons f rest ih =>
    by_cases h : (cfg.noSharedBlocks && f.sharedBlocks) = true
    · rw [runPipeline_cons_skip cfg cost fileId f rest s h]
      exact (ih s).cons f
    · rw [runPipeline_cons_dispatch cfg cost fileId f rest s
        (by simpa using h)]
      simpa using (ih _).cons₂ f

theorem runPipeline_processed (cfg : Config) (cost fileId : Nat)
    (funcs : List Func) (s : RunState) :
    (runPipeline cfg cost fileId funcs s).1.processed
      = s.processed + (runPipeline cfg cost fileId funcs s).2.length := by
  induction funcs generalizing s with
  | nil => simp [runPipeline]
  | cons f rest ih =>
    by_cases h : (cfg.noSharedBlocks && f.sharedBlocks) = true
    · rw [runPipeline_cons_skip cfg cost fileId f rest s h]
      exact ih s
    · rw [runPipeline_cons_dispatch cfg cost fileId f rest s
        (by simpa using h)]
      simp only [List.length_cons]
      rw [ih, runJob_processed]
      omega

theorem runJob_added_eq (cfg : Config) (cost fileId : Nat) (f : Func)
    (s : RunState) (a b : Nat) (t : List Nat)
    (h1 : ¬ f.branchingNodes ≤ cfg.minimumSize)
    (h2 : ¬ s.index.freeSpace < 2 ^ 14)
    (hv : f.simhashValues = a :: b :: t)
    (h3 : cost ≤ s.index.freeSpace) :
    runJob cfg cost fileId f s
      = (⟨⟨s.index.entries ++ [⟨a, b, fileId, f.addr⟩],
           s.index.freeSpace - cost⟩, s.processed + 1⟩, .added) := by
  unfold runJob GetIndexFileFreeSpace CalculateFunctionSimHash AddFunction
  simp only [hv]
  rw [if_neg h1, if_neg h2, if_pos h3]

/-- With enough free capacity for the whole catalog, the run appends
exactly the candidate entries of the catalog, in catalog order. -/
theorem runPipeline_entries_of_capacity (cfg : Config) (cost fileId : Nat)
    (funcs : List Func) (s : RunState)
    (h : 2 ^ 14 + cost * funcs.length ≤ s.index.freeSpace) :
    (runPipeline cfg cost fileId funcs s).1.index.entries
      = s.index.entries ++ funcs.filterMap (candidateEntry cfg fileId) := by
  induction funcs generalizing s with
  | nil => simp [runPipeline]
  | cons f rest ih =>
    have hmul : cost * (rest.length + 1) = cost * rest.length + cost :=
      Nat.mul_succ cost rest.length
    simp only [List.length_cons] at h
    by_cases hsh : (cfg.noSharedBlocks && f.sharedBlocks) = true
    · rw [runPipeline_cons_skip cfg cost fileId f rest s hsh]
      rw [ih s (by omega)]
      simp [candidateEntry, hsh]
    · rw [runPipeline_cons_dispatch cfg cost fileId f rest s
        (by simpa using hsh)]
      by_cases h1 : f.branchingNodes ≤ cfg.minimumSize
      · have hout : (runJob cfg cost fileId f s).2
            = .filteredSize f.branchingNodes := by
          rw [runJob_outcome]
          simp [jobOutcomeOf, h1]
        have hidx := runJob_index_of_not_added cfg cost fileId f s
          (by rw [hout]; intro hc; cases hc)
        rw [ih _ (by rw [hidx]; omega), hidx]
        simp [candidateEntry, hsh, h1]
      · rcases hv : f.simhashValues with _ | ⟨a, _ | ⟨b, t⟩⟩
        · have hout : (runJob cfg cost fileId f s).2
              = .undefinedBehavior := by
            rw [runJob_outcome]
            simp [jobOutcomeOf, h1, hv]
            omega
          have hidx := runJob_index_of_not_added cfg cost fileId f s
            (by rw [hout]; intro hc; cases hc)
          rw [ih _ (by rw [hidx]; omega), hidx]
          simp [candidateEntry, entryOf, hsh, h1, hv]
        · have hout : (runJob cfg cost fileId f s).2
              = .undefinedBehavior := by
            rw [runJob_outcome]
            simp [jobOutcomeOf, h1, hv]
            omega
          have hidx := runJob_index_of_not_added cfg cost fileId f s
            (by rw [hout]; intro hc; cases hc)
          rw [ih _ (by rw [hidx]; omega), hidx]
          simp [candidateEntry, entryOf, hsh, h1, hv]
        · rw [runJob_added_eq cfg cost fileId f s a b t h1 (by omega) hv
            (by omega)]
          rw [ih _ (by simp; omega)]
          simp [candidateEntry, entryOf, hsh, h1, hv]

/-- When the free capacity is already below the 16 KiB margin, no job
modifies the index: small functions still report the size skip, all
other dispatched functions report the index-file-full skip. -/
theorem runPipeline_of_exhausted (cfg : Config) (cost fileId : Nat)
    (funcs : List Func) (s : RunState)
    (h : s.index.freeSpace < 2 ^ 14) :
    (runPipeline cfg cost fileId funcs s).1.index = s.index ∧
    ∀ r ∈ (runPipeline cfg cost fileId funcs s).2,
      r.freeAtStart = s.index.freeSpace ∧
      r.outcome = (if r.func.branchingNodes ≤ cfg.minimumSize
                   then .filteredSize r.func.branchingNodes
                   else .indexFull) := by
  induction funcs generalizing s with
  | nil => simp [runPipeline]
  | cons f rest ih =>
    by_cases hsh : (cfg.noSharedBlocks && f.sharedBlocks) = true
    · rw [runPipeline_cons_skip cfg cost fileId f rest s hsh]
      exact ih s h
    · rw [runPipeline_cons_dispatch cfg cost fileId f rest s
        (by simpa using hsh)]
      have hout : (runJob cfg cost fileId f s).2
          = (if f.branchingNodes ≤ cfg.minimumSize
             then .filteredSize f.branchingNodes else .indexFull) := by
        rw [runJob_outcome]
        unfold jobOutcomeOf
        by_cases h1 : f.branchingNodes ≤ cfg.minimumSize
        · rw [if_pos h1, if_pos h1]
        · rw [if_neg h1, if_pos h, if_neg h1]
      have hidx := runJob_index_of_not_added cfg cost fileId f s
        (by rw [hout]; split_ifs <;> intro hc <;> cases hc)
      obtain ⟨ih1, ih2⟩ := ih (runJob cfg cost fileId f s).1
        (by rw [hidx]; exact h)
      refine ⟨by rw [ih1, hidx], ?_⟩
      intro r hr
      rcases List.mem_cons.mp hr with hr | hr
      · subst hr
        exact ⟨rfl, hout⟩
      · rw [hidx] at ih2
        exact ih2 r hr

theorem threadStep_lockInv (σ σ2 : PoolState) (t : Bool)
    (hinv : LockInv σ) (hs : threadStep σ t = some σ2) : LockInv σ2 := by
  obtain ⟨p0, p1, hold⟩ := σ
  obtain ⟨hinv0, hinv1⟩ := hinv
  cases t
  · simp only [threadStep, pcOf, if_neg Bool.false_ne_true] at hs
    have hp : p0 = 0 ∨ p0 = 1 ∨ p0 = 2 ∨ p0 = 3 ∨ p0 = 4 ∨ p0 = 5 ∨
        p0 = 6 ∨ p0 = 7 ∨ p0 = 8 ∨ 9 ≤ p0 := by omega
    rcases hp with hp | hp | hp | hp | hp | hp | hp | hp | hp | hp <;>
      subst_eqs <;>
      simp_all [jobSteps, setPc, LockInv, holdingRange] <;>
      first
        | (constructor <;> omega)
        | (obtain ⟨-, rfl⟩ := hs
           simp_all
           all_goals omega)
        | (subst hs
           simp_all
           all_goals omega)
        | (rw [List.getElem?_eq_none (by simp; omega)] at hs
           simp at hs)
  · simp only [threadStep, pcOf, if_pos rfl] at hs
    have hp : p1 = 0 ∨ p1 = 1 ∨ p1 = 2 ∨ p1 = 3 ∨ p1 = 4 ∨ p1 = 5 ∨
        p1 = 6 ∨ p1 = 7 ∨ p1 = 8 ∨ 9 ≤ p1 := by omega
    rcases hp with hp | hp | hp | hp | hp | hp | hp | hp | hp | hp <;>
      subst_eqs <;>
      simp_all [jobSteps, setPc, LockInv, holdingRange] <;>
      first
        | (constructor <;> omega)
        | (obtain ⟨-, rfl⟩ := hs
           simp_all
           all_goals omega)
        | (subst hs
           simp_all
           all_goals omega)
        | (rw [List.getElem?_eq_none (by simp; omega)] at hs
           simp at hs)

theorem jobOutcomeOf_eq_added (cfg : Config) (cost : Nat) (f : Func)
    (free : Nat) :
    jobOutcomeOf cfg cost f free = .added ↔
      (cfg.minimumSize < f.branchingNodes ∧ 2 ^ 14 ≤ free ∧
       2 ≤ f.simhashValues.length ∧ cost ≤ free) := by
  unfold jobOutcomeOf
  rcases hv : f.simhashValues with _ | ⟨a, _ | ⟨b, t⟩⟩ <;>
    simp only [hv] <;> split_ifs <;> simp_all <;> omega

theorem runJob_filtered_eq (cfg : Config) (cost fileId : Nat) (f : Func)
    (s : RunState) (h1 : f.branchingNodes ≤ cfg.minimumSize) :
    runJob cfg cost fileId f s
      = (⟨s.index, s.processed + 1⟩, .filteredSize f.branchingNodes) := by
  unfold runJob
  rw [if_pos h1]

theorem runJob_race_eq (cfg : Config) (cost fileId : Nat) (f : Func)
    (s : RunState) (a b : Nat) (t : List Nat)
    (h1 : ¬ f.branchingNodes ≤ cfg.minimumSize)
    (h2 : ¬ s.index.freeSpace < 2 ^ 14)
    (hv : f.simhashValues = a :: b :: t)
    (h3 : ¬ cost ≤ s.index.freeSpace) :
    runJob cfg cost fileId f s
      = (⟨s.index, s.processed + 1⟩, .outOfSpaceAtInsert) := by
  unfold runJob GetIndexFileFreeSpace CalculateFunctionSimHash AddFunction
  simp only [hv]
  rw [if_neg h1, if_neg h2, if_neg h3]

theorem runSchedule_lockInv (sched : List Bool) (σ σ2 : PoolState)
    (hinv : LockInv σ) (hs : runSchedule sched σ = some σ2) :
    LockInv σ2 := by
  induction sched generalizing σ with
  | nil =>
    simp [runSchedule] at hs
    subst hs
    exact hinv
  | cons t rest ih =>
    simp only [runSchedule] at hs
    cases hstep : threadStep σ t with
    | none => rw [hstep] at hs; cases hs
    | some σ3 =>
      rw [hstep] at hs
      exact ih σ3 (threadStep_lockInv σ σ3 t hinv hstep) hs

theorem reachable_lockInv (σ : PoolState) (h : Reachable σ) : LockInv σ := by
  obtain ⟨sched, hs⟩ := h
  exact runSchedule_lockInv sched initPool σ
    (by constructor <;> (intro hc; rcases hc with hc | hc | hc | hc <;>
      simp [initPool] at hc)) hs

/-- C1: in one run, an IndexEntry is written if and only if the owning
function passed the shared-block and minimum-size filters, the index had
at least the 16 KiB safety margin free at the time of the job's check,
and fingerprint extraction succeeded (at least two simhash values); and
each function is dispatched as at most one job, so no function yields
more than one IndexEntry.  The per-entry capacity cost is assumed to be
within the 16 KiB margin, which is what makes the margin a sufficient
pre-check for the insert. -/
theorem claim_C1 (cfg : Config) (cost fileId : Nat) (funcs : List Func)
    (s : RunState) (hcost : cost ≤ 2 ^ 14) :
    (∀ r ∈ (runPipeline cfg cost fileId funcs s).2,
        (cfg.noSharedBlocks && r.func.sharedBlocks) = false ∧
        (r.outcome = .added ↔
          (cfg.minimumSize < r.func.branchingNodes ∧
           2 ^ 14 ≤ r.freeAtStart ∧ 2 ≤ r.func.simhashValues.length))) ∧
    (runPipeline cfg cost fileId funcs s).1.index.entries
      = s.index.entries
        ++ (runPipeline cfg cost fileId funcs s).2.filterMap
            (fun r => if r.outcome = .added then entryOf fileId r.func
                      else none) ∧
    ((runPipeline cfg cost fileId funcs s).2.map JobRecord.func).Sublist
      funcs := by
  refine ⟨?_, runPipeline_entries cfg cost fileId funcs s,
    runPipeline_trace_sublist cfg cost fileId funcs s⟩
  intro r hr
  obtain ⟨hsh, hout⟩ := runPipeline_trace_spec cfg cost fileId funcs s r hr
  refine ⟨hsh, ?_⟩
  rw [hout, jobOutcomeOf_eq_added]
  constructor
  · rintro ⟨ha, hb, hc, -⟩
    exact ⟨ha, hb, hc⟩
  · rintro ⟨ha, hb, hc⟩
    exact ⟨ha, hb, hc, le_trans hcost hb⟩

theorem claim_C1_witness :
    (64 ≤ 2 ^ 14) ∧
    ((∀ r ∈ (runPipeline ⟨5, false⟩ 64 7 [⟨4096, 10, false, [11, 22]⟩]
          ⟨⟨[], 2 ^ 15⟩, 0⟩).2,
        ((⟨5, false⟩ : Config).noSharedBlocks && r.func.sharedBlocks) = false ∧
        (r.outcome = .added ↔
          ((⟨5, false⟩ : Config).minimumSize < r.func.branchingNodes ∧
           2 ^ 14 ≤ r.freeAtStart ∧ 2 ≤ r.func.simhashValues.length))) ∧
     (runPipeline ⟨5, false⟩ 64 7 [⟨4096, 10, false, [11, 22]⟩]
         ⟨⟨[], 2 ^ 15⟩, 0⟩).1.index.entries
       = (⟨⟨[], 2 ^ 15⟩, 0⟩ : RunState).index.entries
         ++ (runPipeline ⟨5, false⟩ 64 7 [⟨4096, 10, false, [11, 22]⟩]
              ⟨⟨[], 2 ^ 15⟩, 0⟩).2.filterMap
              (fun r => if r.outcome = .added then entryOf 7 r.func
                        else none) ∧
     ((runPipeline ⟨5, false⟩ 64 7 [⟨4096, 10, false, [11, 22]⟩]
         ⟨⟨[], 2 ^ 15⟩, 0⟩).2.map JobRecord.func).Sublist
       [⟨4096, 10, false, [11, 22]⟩]) :=
  ⟨by decide, claim_C1 ⟨5, false⟩ 64 7 [⟨4096, 10, false, [11, 22]⟩]
    ⟨⟨[], 2 ^ 15⟩, 0⟩ (by decide)⟩

/-- C7: a function whose branching-node count is at most the configured
minimum-size threshold never yields an IndexEntry: after the run, every
entry carrying its address was already in the index before the run
(addresses are unique within the binary). -/
theorem claim_C7 (cfg : Config) (cost fileId : Nat) (funcs : List Func)
    (s : RunState) (f : Func)
    (hnodup : (funcs.map Func.addr).Nodup)
    (hmem : f ∈ funcs)
    (hsize : f.branchingNodes ≤ cfg.minimumSize) :
    ∀ e ∈ (runPipeline cfg cost fileId funcs s).1.index.entries,
      e.address = f.addr → e ∈ s.index.entries := by
  intro e he haddr
  rw [runPipeline_entries] at he
  rcases List.mem_append.mp he with he | he
  · exact he
  · exfalso
    obtain ⟨r, hr, hfm⟩ := List.mem_filterMap.mp he
    by_cases hadd : r.outcome = .added
    case neg => simp [hadd] at hfm
    rw [if_pos hadd] at hfm
    obtain ⟨-, hout⟩ := runPipeline_trace_spec cfg cost fileId funcs s r hr
    rw [hout] at hadd
    obtain ⟨hbr, -, -, -⟩ :=
      (jobOutcomeOf_eq_added cfg cost r.func r.freeAtStart).mp hadd
    have hfmem : r.func ∈ funcs :=
      (runPipeline_trace_sublist cfg cost fileId funcs s).subset
        (List.mem_map_of_mem JobRecord.func hr)
    have haddr2 : r.func.addr = e.address := by
      unfold entryOf at hfm
      rcases hv : r.func.simhashValues with _ | ⟨a, _ | ⟨b, t⟩⟩ <;>
        simp [hv] at hfm
      rw [← hfm]
    have hrf : r.func = f :=
      List.inj_on_of_nodup_map hnodup hfmem hmem (by rw [haddr2, haddr])
    rw [hrf] at hbr
    omega

theorem claim_C7_witness :
    (⟨1, 2, 7, 4096⟩ : IndexEntry)
      ∈ (⟨⟨[⟨1, 2, 7, 4096⟩], 2 ^ 15⟩, 0⟩ : RunState).index.entries :=
  claim_C7 ⟨5, false⟩ 64 7 [⟨4096, 2, false, [11, 22]⟩]
    ⟨⟨[⟨1, 2, 7, 4096⟩], 2 ^ 15⟩, 0⟩ ⟨4096, 2, false, [11, 22]⟩
    (by decide) (by decide) (by decide) ⟨1, 2, 7, 4096⟩ (by decide)
    (by decide)

/-- C9: running the pipeline on the same catalog and configuration
against two independent empty indexes with sufficient capacity produces
set-equal (here: permutation-equal) index contents, independent of the
order in which the jobs are executed. -/
theorem claim_C9 (cfg : Config) (cost fileId : Nat)
    (funcs1 funcs2 : List Func) (free1 free2 : Nat)
    (hperm : funcs2.Perm funcs1)
    (hcap1 : 2 ^ 14 + cost * funcs1.length ≤ free1)
    (hcap2 : 2 ^ 14 + cost * funcs2.length ≤ free2) :
    ((runPipeline cfg cost fileId funcs2 ⟨⟨[], free2⟩, 0⟩).1.index.entries).Perm
      ((runPipeline cfg cost fileId funcs1 ⟨⟨[], free1⟩, 0⟩).1.index.entries) := by
  rw [runPipeline_entries_of_capacity cfg cost fileId funcs2 _ hcap2,
      runPipeline_entries_of_capacity cfg cost fileId funcs1 _ hcap1]
  simpa using hperm.filterMap (candidateEntry cfg fileId)

theorem claim_C9_witness :
    ((runPipeline ⟨5, false⟩ 64 7
        [⟨8192, 9, false, [33, 44]⟩, ⟨4096, 10, false, [11, 22]⟩]
        ⟨⟨[], 2 ^ 20⟩, 0⟩).1.index.entries).Perm
      ((runPipeline ⟨5, false⟩ 64 7
          [⟨4096, 10, false, [11, 22]⟩, ⟨8192, 9, false, [33, 44]⟩]
          ⟨⟨[], 2 ^ 15⟩, 0⟩).1.index.entries) :=
  claim_C9 ⟨5, false⟩ 64 7
    [⟨4096, 10, false, [11, 22]⟩, ⟨8192, 9, false, [33, 44]⟩]
    [⟨8192, 9, false, [33, 44]⟩, ⟨4096, 10, false, [11, 22]⟩]
    (2 ^ 15) (2 ^ 20) (by decide) (by decide) (by decide)

/-- C10: the job requests 128 simhash output values from the external
fingerprinter, but the behaviour of the job — in particular the stored
entry, built from `hashes[0]` and `hashes[1]` — depends only on the
first two returned values: replacing the returned vector by any vector
with the same first two elements leaves the job's result unchanged. -/
theorem claim_C10 (cfg : Config) (cost fileId : Nat) (s : RunState)
    (f : Func) (v : List Nat)
    (htake : f.simhashValues.take 2 = v.take 2) :
    simhashRequestedOutputs = 128 ∧
    CalculateFunctionSimHash simhashRequestedOutputs f = f.simhashValues ∧
    runJob cfg cost fileId f s
      = runJob cfg cost fileId ⟨f.addr, f.branchingNodes, f.sharedBlocks, v⟩ s := by
  refine ⟨rfl, rfl, ?_⟩
  unfold runJob CalculateFunctionSimHash GetIndexFileFreeSpace AddFunction
  rcases hv1 : f.simhashValues with _ | ⟨a, _ | ⟨b, t⟩⟩ <;>
    rcases hv2 : v with _ | ⟨c, _ | ⟨d, u⟩⟩ <;>
    rw [hv1, hv2] at htake <;> simp_all

theorem claim_C10_witness :
    simhashRequestedOutputs = 128 ∧
    CalculateFunctionSimHash simhashRequestedOutputs
        ⟨4096, 10, false, [11, 22]⟩
      = (⟨4096, 10, false, [11, 22]⟩ : Func).simhashValues ∧
    runJob ⟨5, false⟩ 64 7 ⟨4096, 10, false, [11, 22]⟩ ⟨⟨[], 2 ^ 15⟩, 0⟩
      = runJob ⟨5, false⟩ 64 7 ⟨4096, 10, false, [11, 22, 33, 44]⟩
          ⟨⟨[], 2 ^ 15⟩, 0⟩ :=
  claim_C10 ⟨5, false⟩ 64 7 ⟨⟨[], 2 ^ 15⟩, 0⟩ ⟨4096, 10, false, [11, 22]⟩
    [11, 22, 33, 44] (by decide)

/-- C2 counterexample: in the three-function scenario of the claim (one
function with 2 branching nodes at threshold 5, one function marked as
sharing basic blocks with `no_shared_blocks` set, one function with 10
branching nodes and no sharing, ample capacity), exactly one IndexEntry
is produced but the processed counter ends at 2, not 3: the shared-block
function is skipped by `continue` before any job is submitted, so the
in-job increment never runs for it. -/
theorem claim_C2_counterexample :
    (runPipeline ⟨5, true⟩ 64 9
        [⟨256, 2, false, [1, 2]⟩, ⟨512, 10, true, [3, 4]⟩,
         ⟨768, 10, false, [5, 6]⟩] ⟨⟨[], 2 ^ 20⟩, 0⟩).1.index.entries.length
      = 1 ∧
    (runPipeline ⟨5, true⟩ 64 9
        [⟨256, 2, false, [1, 2]⟩, ⟨512, 10, true, [3, 4]⟩,
         ⟨768, 10, false, [5, 6]⟩] ⟨⟨[], 2 ^ 20⟩, 0⟩).1.processed = 2 ∧
    ¬ (runPipeline ⟨5, true⟩ 64 9
        [⟨256, 2, false, [1, 2]⟩, ⟨512, 10, true, [3, 4]⟩,
         ⟨768, 10, false, [5, 6]⟩] ⟨⟨[], 2 ^ 20⟩, 0⟩).1.processed = 3 := by
  decide

/-- C2 (amended): for a binary with exactly those 3 functions, threshold
5 and `no_shared_blocks` set, exactly one IndexEntry is produced and the
processed counter ends at 2, because the shared-block function is
skipped before job submission and the counter is incremented inside the
job only for the two dispatched functions, immediately after flow-graph
construction and before any skip or insert decision. -/
theorem claim_C2 (cost fileId a1 a2 a3 b2 x y : Nat) (t l1 l2 : List Nat)
    (E : List IndexEntry) (free p0 : Nat)
    (hfree : 2 ^ 14 ≤ free) (hcost : cost ≤ free) :
    (runPipeline ⟨5, true⟩ cost fileId
        [⟨a1, 2, false, l1⟩, ⟨a2, b2, true, l2⟩, ⟨a3, 10, false, x :: y :: t⟩]
        ⟨⟨E, free⟩, p0⟩).1.processed = p0 + 2 ∧
    (runPipeline ⟨5, true⟩ cost fileId
        [⟨a1, 2, false, l1⟩, ⟨a2, b2, true, l2⟩, ⟨a3, 10, false, x :: y :: t⟩]
        ⟨⟨E, free⟩, p0⟩).1.index.entries
      = E ++ [⟨x, y, fileId, a3⟩] := by
  rw [runPipeline_cons_dispatch _ _ _ _ _ _ (by simp),
      runJob_filtered_eq _ _ _ _ _ (by simp),
      runPipeline_cons_skip _ _ _ _ _ _ (by simp),
      runPipeline_cons_dispatch _ _ _ _ _ _ (by simp),
      runJob_added_eq _ cost fileId _ _ x y t (by simp) (by simp; omega) rfl
        (by simpa using hcost)]
  simp [runPipeline]

theorem claim_C2_witness :
    (2 ^ 14 ≤ 2 ^ 20) ∧ (64 ≤ 2 ^ 20) ∧
    ((runPipeline ⟨5, true⟩ 64 9
        [⟨256, 2, false, [1, 2]⟩, ⟨512, 10, true, [3, 4]⟩,
         ⟨768, 10, false, [5, 6]⟩] ⟨⟨[], 2 ^ 20⟩, 0⟩).1.processed = 0 + 2 ∧
     (runPipeline ⟨5, true⟩ 64 9
        [⟨256, 2, false, [1, 2]⟩, ⟨512, 10, true, [3, 4]⟩,
         ⟨768, 10, false, [5, 6]⟩] ⟨⟨[], 2 ^ 20⟩, 0⟩).1.index.entries
       = [] ++ [⟨5, 6, 9, 768⟩]) :=
  ⟨by decide, by decide,
   claim_C2 64 9 256 512 768 10 5 6 [] [1, 2] [3, 4] [] (2 ^ 20) 0
     (by decide) (by decide)⟩

/-- C3 counterexample: the free-capacity read is not mutually exclusive
with inserts.  There is a reachable two-worker state in which one thread
holds the mutex inside its `AddFunction` critical section while the
other thread can fire its unlocked `GetIndexFileFreeSpace` read: run
thread 0 through its first seven steps (up to and including its second
lock acquire), then step thread 1 once. -/
theorem claim_C3_counterexample : ¬ CapacityReadInsertExclusive := by
  intro h
  exact h ⟨⟨7, 1, some false⟩,
    ⟨[false, false, false, false, false, false, false, true], by decide⟩,
    false, by decide, by decide, by decide, by decide⟩

/-- C3 (amended): the inserts themselves are mutually exclusive — in
every reachable two-worker state, a thread whose program counter is at
the `AddFunction` step owns the process-wide mutex, so the two threads
are never both inside their insert critical sections — but the
free-capacity read runs without the lock (see the counterexample). -/
theorem claim_C3 (σ : PoolState) (h : Reachable σ) :
    (σ.pc0 = 7 → σ.lockHolder = some false) ∧
    (σ.pc1 = 7 → σ.lockHolder = some true) ∧
    ¬ (σ.pc0 = 7 ∧ σ.pc1 = 7) := by
  obtain ⟨h0, h1⟩ := reachable_lockInv σ h
  refine ⟨fun hp => h0 (by simp [holdingRange, hp]),
          fun hp => h1 (by simp [holdingRange, hp]), ?_⟩
  rintro ⟨hp0, hp1⟩
  have e0 := h0 (by simp [holdingRange, hp0])
  have e1 := h1 (by simp [holdingRange, hp1])
  rw [e0] at e1
  simp at e1

theorem claim_C3_witness :
    (initPool.pc0 = 7 → initPool.lockHolder = some false) ∧
    (initPool.pc1 = 7 → initPool.lockHolder = some true) ∧
    ¬ (initPool.pc0 = 7 ∧ initPool.pc1 = 7) :=
  claim_C3 initPool ⟨[], rfl⟩

/-- C4 counterexample: with the index pre-filled to 8 KiB free (below
the 16 KiB margin), a job whose function fails the size filter does not
report the index-full outcome: the size check runs first, so the job
reports the size skip. -/
theorem claim_C4_counterexample :
    ∃ r ∈ (runPipeline ⟨5, false⟩ 64 1 [⟨16, 1, false, [5, 6]⟩]
        ⟨⟨[], 8192⟩, 0⟩).2, ¬ r.outcome = .indexFull := by
  decide

/-- C4 (amended): when free capacity is below the 16 KiB margin, no job
modifies the index (zero new entries, no extraction, no insertion);
every dispatched job that passes the size filter reports the index-full
outcome, while size-filtered jobs still report the size skip. -/
theorem claim_C4 (cfg : Config) (cost fileId : Nat) (funcs : List Func)
    (s : RunState) (h : s.index.freeSpace < 2 ^ 14) :
    (runPipeline cfg cost fileId funcs s).1.index = s.index ∧
    ∀ r ∈ (runPipeline cfg cost fileId funcs s).2,
      r.outcome = (if r.func.branchingNodes ≤ cfg.minimumSize
                   then .filteredSize r.func.branchingNodes
                   else .indexFull) := by
  obtain ⟨h1, h2⟩ := runPipeline_of_exhausted cfg cost fileId funcs s h
  exact ⟨h1, fun r hr => (h2 r hr).2⟩

theorem claim_C4_witness :
    (8192 < 2 ^ 14) ∧
    ((runPipeline ⟨5, false⟩ 64 1 [⟨16, 1, false, [5, 6]⟩]
        ⟨⟨[], 8192⟩, 0⟩).1.index = (⟨⟨[], 8192⟩, 0⟩ : RunState).index ∧
     ∀ r ∈ (runPipeline ⟨5, false⟩ 64 1 [⟨16, 1, false, [5, 6]⟩]
        ⟨⟨[], 8192⟩, 0⟩).2,
      r.outcome = (if r.func.branchingNodes ≤ (⟨5, false⟩ : Config).minimumSize
                   then .filteredSize r.func.branchingNodes
                   else .indexFull)) :=
  ⟨by decide,
   claim_C4 ⟨5, false⟩ 64 1 [⟨16, 1, false, [5, 6]⟩] ⟨⟨[], 8192⟩, 0⟩
     (by decide)⟩

/-- C5 counterexample: when the fingerprinter returns a one-element
vector for a function that passes the filters with ample capacity, the
job does not end in any handled, reported outcome: it performs the
out-of-bounds accesses `hashes[0]` and `hashes[1]` (undefined behaviour
in the C++ source), not a reported ExtractionFault. -/
theorem claim_C5_counterexample :
    (runJob ⟨5, false⟩ 64 1 ⟨16, 10, false, [42]⟩ ⟨⟨[], 2 ^ 15⟩, 0⟩).2
      = .undefinedBehavior ∧
    ((runJob ⟨5, false⟩ 64 1 ⟨16, 10, false, [42]⟩
        ⟨⟨[], 2 ^ 15⟩, 0⟩).2).handled = false := by
  decide

/-- C5 (amended): a fingerprinter result with fewer than two values is
not treated as a reported ExtractionFault; the job reaches the unchecked
`hashes[0]`/`hashes[1]` accesses, which is undefined behaviour, and in
the embedding ends in the unhandled `undefinedBehavior` outcome with no
IndexEntry written for that function. -/
theorem claim_C5 (cfg : Config) (cost fileId : Nat) (f : Func)
    (s : RunState) (h1 : cfg.minimumSize < f.branchingNodes)
    (h2 : 2 ^ 14 ≤ s.index.freeSpace)
    (hlen : f.simhashValues.length < 2) :
    (runJob cfg cost fileId f s).2 = .undefinedBehavior ∧
    ((runJob cfg cost fileId f s).2).handled = false ∧
    (runJob cfg cost fileId f s).1.index = s.index := by
  have hout : (runJob cfg cost fileId f s).2 = .undefinedBehavior := by
    rw [runJob_outcome]
    unfold jobOutcomeOf
    rw [if_neg (by omega), if_neg (by omega)]
    rcases hv : f.simhashValues with _ | ⟨a, _ | ⟨b, t⟩⟩
    · rfl
    · rfl
    · rw [hv] at hlen
      simp at hlen
      omega
  refine ⟨hout, by rw [hout]; rfl, ?_⟩
  exact runJob_index_of_not_added cfg cost fileId f s
    (by rw [hout]; intro hc; cases hc)

theorem claim_C5_witness :
    ((⟨5, false⟩ : Config).minimumSize
      < (⟨16, 10, false, [42]⟩ : Func).branchingNodes) ∧
    (2 ^ 14 ≤ (⟨⟨[], 2 ^ 15⟩, 0⟩ : RunState).index.freeSpace) ∧
    ((⟨16, 10, false, [42]⟩ : Func).simhashValues.length < 2) ∧
    ((runJob ⟨5, false⟩ 64 1 ⟨16, 10, false, [42]⟩ ⟨⟨[], 2 ^ 15⟩, 0⟩).2
       = .undefinedBehavior ∧
     ((runJob ⟨5, false⟩ 64 1 ⟨16, 10, false, [42]⟩
         ⟨⟨[], 2 ^ 15⟩, 0⟩).2).handled = false ∧
     (runJob ⟨5, false⟩ 64 1 ⟨16, 10, false, [42]⟩ ⟨⟨[], 2 ^ 15⟩, 0⟩).1.index
       = (⟨⟨[], 2 ^ 15⟩, 0⟩ : RunState).index) :=
  ⟨by decide, by decide, by decide,
   claim_C5 ⟨5, false⟩ 64 1 ⟨16, 10, false, [42]⟩ ⟨⟨[], 2 ^ 15⟩, 0⟩
     (by decide) (by decide) (by decide)⟩

/-- C6: when the free-capacity pre-check passes but the insert itself
hits out-of-space (the capacity race), the writer catches the condition
as non-fatal: the job records the out-of-space outcome, the index is
left unchanged by that job, the remaining jobs run exactly as they would
from the same index state, and normal completion still exits with
code 0. -/
theorem claim_C6 (cfg : Config) (cost fileId : Nat) (f : Func)
    (rest : List Func) (s : RunState) (input : String) (x y : Nat)
    (tl : List Nat)
    (hsh : (cfg.noSharedBlocks && f.sharedBlocks) = false)
    (h1 : ¬ f.branchingNodes ≤ cfg.minimumSize)
    (h2 : 2 ^ 14 ≤ s.index.freeSpace)
    (hv : f.simhashValues = x :: y :: tl)
    (hrace : s.index.freeSpace < cost)
    (hin : input ≠ "") :
    runPipeline cfg cost fileId (f :: rest) s
      = ((runPipeline cfg cost fileId rest ⟨s.index, s.processed + 1⟩).1,
         ⟨f, s.index.freeSpace, .outOfSpaceAtInsert⟩
           :: (runPipeline cfg cost fileId rest
                ⟨s.index, s.processed + 1⟩).2) ∧
    (mainRun cfg cost fileId input true (f :: rest) s.index).exitCode = 0 := by
  constructor
  · rw [runPipeline_cons_dispatch cfg cost fileId f rest s hsh,
        runJob_race_eq cfg cost fileId f s x y tl h1 (by omega) hv (by omega)]
  · simp [mainRun, hin]

theorem claim_C6_witness :
    (((⟨5, false⟩ : Config).noSharedBlocks
       && (⟨16, 10, false, [5, 6]⟩ : Func).sharedBlocks) = false) ∧
    (¬ (⟨16, 10, false, [5, 6]⟩ : Func).branchingNodes
       ≤ (⟨5, false⟩ : Config).minimumSize) ∧
    (2 ^ 14 ≤ (⟨⟨[], 2 ^ 14⟩, 0⟩ : RunState).index.freeSpace) ∧
    ((⟨⟨[], 2 ^ 14⟩, 0⟩ : RunState).index.freeSpace < 2 ^ 15) ∧
    (runPipeline ⟨5, false⟩ (2 ^ 15) 1 [⟨16, 10, false, [5, 6]⟩]
        ⟨⟨[], 2 ^ 14⟩, 0⟩
      = ((runPipeline ⟨5, false⟩ (2 ^ 15) 1 []
            ⟨(⟨⟨[], 2 ^ 14⟩, 0⟩ : RunState).index, 0 + 1⟩).1,
         ⟨⟨16, 10, false, [5, 6]⟩,
          (⟨⟨[], 2 ^ 14⟩, 0⟩ : RunState).index.freeSpace,
          .outOfSpaceAtInsert⟩
           :: (runPipeline ⟨5, false⟩ (2 ^ 15) 1 []
                ⟨(⟨⟨[], 2 ^ 14⟩, 0⟩ : RunState).index, 0 + 1⟩).2) ∧
     (mainRun ⟨5, false⟩ (2 ^ 15) 1 "bin" true [⟨16, 10, false, [5, 6]⟩]
        (⟨⟨[], 2 ^ 14⟩, 0⟩ : RunState).index).exitCode = 0) :=
  ⟨by decide, by decide, by decide, by decide,
   claim_C6 ⟨5, false⟩ (2 ^ 15) 1 ⟨16, 10, false, [5, 6]⟩ []
     ⟨⟨[], 2 ^ 14⟩, 0⟩ "bin" 5 6 [] (by decide) (by decide) (by decide) rfl
     (by decide) (by simp)⟩

/-- C8: the process exits -1 with the usage diagnostic on empty input
before any job is scheduled, exits 1 immediately on a binary load
failure, exits -1 with a diagnostic when zero functions are discovered,
and exits 0 with no fatal diagnostic on normal completion after
draining the pool. -/
theorem claim_C8 (cfg : Config) (cost fileId : Nat) (input : String)
    (loadOk : Bool) (funcs : List Func) (idx : SimHashSearchIndex) :
    (input = "" →
      (mainRun cfg cost fileId input loadOk funcs idx).exitCode = -1 ∧
      (mainRun cfg cost fileId input loadOk funcs idx).diagnostic
        = some "[!] Empty target binary." ∧
      (mainRun cfg cost fileId input loadOk funcs idx).trace = [] ∧
      (mainRun cfg cost fileId input loadOk funcs idx).state.processed = 0) ∧
    (input ≠ "" → loadOk = false →
      (mainRun cfg cost fileId input loadOk funcs idx).exitCode = 1 ∧
      (mainRun cfg cost fileId input loadOk funcs idx).trace = []) ∧
    (input ≠ "" → loadOk = true → funcs = [] →
      (mainRun cfg cost fileId input loadOk funcs idx).exitCode = -1 ∧
      (mainRun cfg cost fileId input loadOk funcs idx).diagnostic
        = some "No functions found.") ∧
    (input ≠ "" → loadOk = true → funcs ≠ [] →
      (mainRun cfg cost fileId input loadOk funcs idx).exitCode = 0 ∧
      (mainRun cfg cost fileId input loadOk funcs idx).diagnostic = none) := by
  refine ⟨?_, ?_, ?_, ?_⟩ <;> intros <;>
    simp_all [mainRun, List.length_eq_zero]

theorem claim_C8_witness :
    ((mainRun ⟨5, false⟩ 64 1 "" true [] ⟨[], 2 ^ 15⟩).exitCode = -1 ∧
     (mainRun ⟨5, false⟩ 64 1 "" true [] ⟨[], 2 ^ 15⟩).diagnostic
       = some "[!] Empty target binary." ∧
     (mainRun ⟨5, false⟩ 64 1 "" true [] ⟨[], 2 ^ 15⟩).trace = [] ∧
     (mainRun ⟨5, false⟩ 64 1 "" true [] ⟨[], 2 ^ 15⟩).state.processed = 0) ∧
    ((mainRun ⟨5, false⟩ 64 1 "bin" false [] ⟨[], 2 ^ 15⟩).exitCode = 1 ∧
     (mainRun ⟨5, false⟩ 64 1 "bin" false [] ⟨[], 2 ^ 15⟩).trace = []) ∧
    ((mainRun ⟨5, false⟩ 64 1 "bin" true [] ⟨[], 2 ^ 15⟩).exitCode = -1 ∧
     (mainRun ⟨5, false⟩ 64 1 "bin" true [] ⟨[], 2 ^ 15⟩).diagnostic
       = some "No functions found.") ∧
    ((mainRun ⟨5, false⟩ 64 1 "bin" true [⟨16, 10, false, [5, 6]⟩]
        ⟨[], 2 ^ 15⟩).exitCode = 0 ∧
     (mainRun ⟨5, false⟩ 64 1 "bin" true [⟨16, 10, false, [5, 6]⟩]
        ⟨[], 2 ^ 15⟩).diagnostic = none) :=
  ⟨(claim_C8 ⟨5, false⟩ 64 1 "" true [] ⟨[], 2 ^ 15⟩).1 rfl,
   (claim_C8 ⟨5, false⟩ 64 1 "bin" false [] ⟨[], 2 ^ 15⟩).2.1
     (by simp) rfl,
   (claim_C8 ⟨5, false⟩ 64 1 "bin" true [] ⟨[], 2 ^ 15⟩).2.2.1
     (by simp) rfl rfl,
   (claim_C8 ⟨5, false⟩ 64 1 "bin" true [⟨16, 10, false, [5, 6]⟩]
       ⟨[], 2 ^ 15⟩).2.2.2 (by simp) rfl (by simp)⟩

end AddFunctionsToIndex
